import Mathlib

/-
Verification development for the fetch-full-solidity-contract repository.

The embedding translates, from the JavaScript sources:
  * src/modules/sourceParser.js  — source-payload parsing, comment stripping,
    audit classification, blacklist filtering and the save pipeline;
  * src/modules/proxyDetector.js — the proxy-resolution priority chain.

Modelling conventions (stated once here, referenced by the definitions):
  * Machine-level strings are Lean String / List Char; addresses and 256-bit
    storage words are Nat (a storage word is reduced mod 2^160 exactly where
    the code takes the last 40 hex characters).
  * Asynchronous chain reads are modelled by a record of pure functions
    (ChainProvider); a probe failure (revert, network error) is Option.none,
    mirroring the try/catch blocks that convert failures to null.
  * JavaScript truthiness of a possibly-absent string field is modelled by
    the empty string for null/undefined.
-/

namespace FetchSol

/-! ### Character classes (ASCII fragment of the JavaScript classes) -/

/-- JavaScript whitespace as used by trim, \s, trimEnd.  Only the ASCII
whitespace characters are modelled; the Unicode space characters that the
registry never emits are not. -/
def isJsSpace (c : Char) : Bool :=
  c = ' ' || c = '\t' || c = '\n' || c = '\r' || c = Char.ofNat 11 || c = Char.ofNat 12

/-- JavaScript word character \w = [A-Za-z0-9_]. -/
def isWordChar (c : Char) : Bool :=
  c.isAlpha || c.isDigit || c = '_'

/-- Hex digit [a-fA-F0-9]. -/
def isHexDig (c : Char) : Bool :=
  c.isDigit || ('a' ≤ c && c ≤ 'f') || ('A' ≤ c && c ≤ 'F')

def hexVal (c : Char) : Nat :=
  if c.isDigit then c.toNat - 48
  else if 'a' ≤ c && c ≤ 'f' then c.toNat - 87
  else if 'A' ≤ c && c ≤ 'F' then c.toNat - 55
  else 0

def hexToNat (cs : List Char) : Nat :=
  cs.foldl (fun acc c => acc * 16 + hexVal c) 0

/-- The two brace characters, named so that they can be used in the
character-level scanners. -/
def lbrace : Char := Char.ofNat 123

def rbrace : Char := Char.ofNat 125

/-- Match a literal (case-sensitive); on success return the remainder. -/
def matchLit : List Char → List Char → Option (List Char)
  | [], cs => some cs
  | _ :: _, [] => none
  | a :: as, b :: bs => if a = b then matchLit as bs else none

/-- Match a literal up to ASCII case (a JavaScript /i regex literal). -/
def matchLitCI : List Char → List Char → Option (List Char)
  | [], cs => some cs
  | _ :: _, [] => none
  | a :: as, b :: bs => if a.toLower = b.toLower then matchLitCI as bs else none

/-- One-or-more JavaScript whitespace characters (\s+), maximal munch;
returns the remainder after the whitespace run. -/
def sp1 : List Char → Option (List Char)
  | [] => none
  | c :: rest => if isJsSpace c then some ((c :: rest).dropWhile isJsSpace) else none

/-- Zero-or-more whitespace (\s*), maximal munch. -/
def sp0 (cs : List Char) : List Char :=
  cs.dropWhile isJsSpace

/-- Substring containment, the semantics of JavaScript String.includes
(the empty needle is contained in everything). -/
def hasSub (hay needle : List Char) : Bool :=
  match hay with
  | [] => (matchLit needle []).isSome
  | c :: rest => (matchLit needle (c :: rest)).isSome || hasSub rest needle

/-- JavaScript String.startsWith on the character level (the inputs here
are ASCII, where UTF-16 units and code points agree). -/
def strStarts (s pre : String) : Bool :=
  (matchLit pre.toList s.toList).isSome

/-- JavaScript String.endsWith on the character level. -/
def strEnds (s suf : String) : Bool :=
  (matchLit suf.toList.reverse s.toList.reverse).isSome

/-- Drop the first n characters. -/
def strDropFirst (s : String) (n : Nat) : String :=
  String.mk (s.toList.drop n)

/-- Drop the last n characters. -/
def strDropLast (s : String) (n : Nat) : String :=
  String.mk (s.toList.take (s.toList.length - n))

/-! ### Comment stripper — stripSolidityComments (sourceParser.js lines 336-418)

The JavaScript is an index-based left-to-right scan; the lookback
source[i-1] is threaded through the recursion as the previous consumed
character. -/

/-- The inner copy loop of a string literal: after the opening quote q was
emitted, copy every character and stop after the first occurrence of q whose
preceding source character is not a backslash.  Returns the copied output,
the unconsumed remainder, and the last consumed character (the new value of
source[i-1]; when nothing is consumed that is the opening quote itself). -/
def copyString (q : Char) (prev : Char) : List Char → List Char × List Char × Char
  | [] => ([], [], prev)
  | c :: rest =>
    if c = q ∧ prev ≠ '\\' then ([c], rest, c)
    else
      let t := copyString q c rest
      (c :: t.1, t.2.1, t.2.2)

/-- The block-comment skip loop (while i < len-1 look for the pair * /):
returns the unconsumed remainder and the new previous character.  Mirrors the
JavaScript exactly, including the behaviour that with fewer than two
characters left the loop stops and the remaining character is NOT consumed. -/
def skipBlock (prev : Char) : List Char → List Char × Char
  | [] => ([], prev)
  | a :: tail =>
    match tail with
    | [] => ([a], prev)
    | b :: rest =>
      if a = '*' ∧ b = '/' then (rest, '/')
      else skipBlock a tail

/-- The main scan loop, structurally recursive on a fuel argument so that
the kernel can evaluate it; every iteration consumes at least one input
character, so any fuel above the input length is ample (stripScan_congr
below).  prev is source[i-1] (none at the start of the input).  Branch
order mirrors the JavaScript: single-quote string, double-quote string,
block comment, line comment, ordinary character. -/
def stripScan : Nat → Option Char → List Char → List Char
  | 0, _, _ => []
  | _ + 1, _, [] => []
  | fuel + 1, prev, c :: rest =>
    if (c = '\'' ∨ c = '"') ∧ prev ≠ some '\\' then
      let t := copyString c c rest
      c :: (t.1 ++ stripScan fuel (some t.2.2) t.2.1)
    else if c = '/' ∧ rest.head? = some '*' then
      let t := skipBlock '*' rest.tail
      stripScan fuel (some t.2) t.1
    else if c = '/' ∧ rest.head? = some '/' then
      -- the line-comment loop starts at the first '/', which is not a
      -- newline, so dropping from rest is the same as dropping from c::rest;
      -- when a newline is found it is kept and the scan resumes after it
      let r := rest.dropWhile (· ≠ '\n')
      if r.head? = some '\n' then '\n' :: stripScan fuel (some '\n') r.tail else []
    else c :: stripScan fuel (some c) rest

/-- The scan at its canonical fuel. -/
def strip0 (prev : Option Char) (cs : List Char) : List Char :=
  stripScan (cs.length + 1) prev cs

/-- Post-processing step 1: result.replace of three-or-more newlines in a
row by exactly two (fuel-indexed for the same evaluation reason; only runs
of newlines consume more than one step). -/
def collapseNLGo : Nat → List Char → List Char
  | 0, _ => []
  | _ + 1, [] => []
  | fuel + 1, c :: rest =>
    if c = '\n' then
      let n := 1 + (rest.takeWhile (· = '\n')).length
      (if n ≥ 3 then ['\n', '\n'] else List.replicate n '\n')
        ++ collapseNLGo fuel (rest.drop (n - 1))
    else c :: collapseNLGo fuel rest

def collapseNewlines (cs : List Char) : List Char :=
  collapseNLGo (cs.length + 1) cs

/-- Remove trailing whitespace characters. -/
def dropTrailingWs (cs : List Char) : List Char :=
  (cs.reverse.dropWhile isJsSpace).reverse

/-- Post-processing step 2: split on newline, trimEnd every line, join. -/
def rstripLines (cs : List Char) : List Char :=
  List.intercalate ['\n'] ((cs.splitOn '\n').map dropTrailingWs)

/-- JavaScript String.trim (whole-input trim). -/
def jsTrimList (cs : List Char) : List Char :=
  ((cs.dropWhile isJsSpace).reverse.dropWhile isJsSpace).reverse

def jsTrimStr (s : String) : String :=
  String.mk (jsTrimList s.toList)

/-- stripSolidityComments: the scan followed by the three clean-up passes
and the final guaranteed single trailing newline. -/
def stripSolidityComments (source : String) : String :=
  String.mk (jsTrimList (rstripLines (collapseNewlines (strip0 none source.toList))) ++ ['\n'])

/-! ### JSON values and JSON.parse

parseSourceCode calls the JavaScript builtin JSON.parse; the builtin is an
external collaborator and is modelled by a recursive-descent parser over the
same grammar.  Numbers keep their lexeme (no numeric claim depends on their
value); object key order is insertion order with a duplicate key replacing
the earlier value in place, as in JavaScript.  The reordering JavaScript
applies to integer-like keys is not modelled (source payload keys are file
paths). -/

inductive Json where
  | null : Json
  | bool : Bool → Json
  | num : String → Json
  | str : String → Json
  | arr : List Json → Json
  | obj : List (String × Json) → Json
deriving Repr

/-- Property lookup on an object: JavaScript sees the last assignment, and
the model parser already collapses duplicates, so plain first lookup. -/
def jLookup (kvs : List (String × Json)) (k : String) : Option Json :=
  match kvs with
  | [] => none
  | (k', v) :: rest => if k' = k then some v else jLookup rest k

def jIsNull : Json → Bool
  | Json.null => true
  | _ => false

/-- Is the numeric lexeme a representation of zero (every mantissa digit 0)? -/
def numLexIsZero (lex : String) : Bool :=
  (lex.toList.filter fun c => c.isDigit && c ≠ '0').isEmpty
    && (lex.toList.takeWhile (fun c => c ≠ 'e' && c ≠ 'E')).all
        (fun c => !c.isDigit || c = '0')

/-- JavaScript truthiness of a JSON value. -/
def jsTruthy : Json → Bool
  | Json.null => false
  | Json.bool b => b
  | Json.num lex => !numLexIsZero lex
  | Json.str s => s ≠ ""
  | Json.arr _ => true
  | Json.obj _ => true

/-- Replace the value of an existing key in place, else append (the
JavaScript object-literal duplicate-key behaviour). -/
def jUpsert (kvs : List (String × Json)) (k : String) (v : Json) : List (String × Json) :=
  match kvs with
  | [] => [(k, v)]
  | (k', v') :: rest => if k' = k then (k, v) :: rest else (k', v') :: jUpsert rest k v

def isJsonWs (c : Char) : Bool :=
  c = ' ' || c = '\t' || c = '\n' || c = '\r'

def skipJWs (cs : List Char) : List Char :=
  cs.dropWhile isJsonWs

def jEscape (c : Char) : Option Char :=
  if c = '"' then some '"'
  else if c = '\\' then some '\\'
  else if c = '/' then some '/'
  else if c = 'b' then some (Char.ofNat 8)
  else if c = 'f' then some (Char.ofNat 12)
  else if c = 'n' then some '\n'
  else if c = 'r' then some '\r'
  else if c = 't' then some '\t'
  else none

/-- Parse the body of a JSON string after the opening quote. -/
def parseJStr (fuel : Nat) (cs : List Char) (acc : List Char) : Option (String × List Char) :=
  match fuel with
  | 0 => none
  | fuel + 1 =>
    match cs with
    | [] => none
    | c :: rest =>
      if c = '"' then some (String.mk acc.reverse, rest)
      else if c = '\\' then
        match rest with
        | [] => none
        | e :: rest' =>
          if e = 'u' then
            match rest' with
            | h1 :: h2 :: h3 :: h4 :: rest'' =>
              if isHexDig h1 && isHexDig h2 && isHexDig h3 && isHexDig h4 then
                parseJStr fuel rest'' (Char.ofNat (hexToNat [h1, h2, h3, h4]) :: acc)
              else none
            | _ => none
          else
            match jEscape e with
            | some d => parseJStr fuel rest' (d :: acc)
            | none => none
      else if c.toNat < 32 then none
      else parseJStr fuel rest (c :: acc)

/-- Lex a JSON number (sign, integer part, fraction, exponent); keeps the
lexeme. -/
def parseJNum (cs : List Char) : Option (String × List Char) :=
  let (sign, cs1) :=
    match cs with
    | '-' :: rest => (['-'], rest)
    | _ => (([] : List Char), cs)
  let intPart := cs1.takeWhile Char.isDigit
  let cs2 := cs1.dropWhile Char.isDigit
  if intPart.isEmpty then none
  else if intPart.length > 1 ∧ intPart.head? = some '0' then none
  else
    let (frac, cs3) :=
      match cs2 with
      | '.' :: rest =>
        let ds := rest.takeWhile Char.isDigit
        if ds.isEmpty then (none, cs2) else (some ('.' :: ds), rest.dropWhile Char.isDigit)
      | _ => (none, cs2)
    match frac, cs3 with
    | none, '.' :: _ => none
    | _, _ =>
      let (expPart, cs4) :=
        match cs3 with
        | e :: rest =>
          if e = 'e' || e = 'E' then
            let (es, rest') :=
              match rest with
              | s :: r' => if s = '+' || s = '-' then ([e, s], r') else ([e], rest)
              | [] => ([e], rest)
            let ds := rest'.takeWhile Char.isDigit
            if ds.isEmpty then (none, cs3) else (some (es ++ ds), rest'.dropWhile Char.isDigit)
          else (none, cs3)
        | [] => (none, cs3)
      match expPart, cs4 with
      | none, e :: _ =>
        if e = 'e' || e = 'E' then none
        else some (String.mk (sign ++ intPart ++ (frac.getD []) ), cs4)
      | _, _ => some (String.mk (sign ++ intPart ++ (frac.getD []) ++ (expPart.getD [])), cs4)

mutual

/-- JSON value parser (fuel-indexed; the initial fuel is ample for any
physically possible nesting, and exhaustion reports a parse failure, which
parseSourceCode treats like a JSON.parse exception). -/
def parseJVal (fuel : Nat) (cs : List Char) : Option (Json × List Char) :=
  match fuel with
  | 0 => none
  | fuel + 1 =>
    match cs with
    | [] => none
    | c :: rest =>
      if c = lbrace then parseJObj fuel (skipJWs rest) []
      else if c = '[' then parseJArr fuel (skipJWs rest) []
      else if c = '"' then
        match parseJStr (rest.length + 1) rest [] with
        | some (s, rest') => some (Json.str s, rest')
        | none => none
      else
        match matchLit ("true".toList) (c :: rest) with
        | some r => some (Json.bool true, r)
        | none =>
          match matchLit ("false".toList) (c :: rest) with
          | some r => some (Json.bool false, r)
          | none =>
            match matchLit ("null".toList) (c :: rest) with
            | some r => some (Json.null, r)
            | none =>
              match parseJNum (c :: rest) with
              | some (lex, r) => some (Json.num lex, r)
              | none => none

/-- Object members (cs points just after a consumed brace and whitespace). -/
def parseJObj (fuel : Nat) (cs : List Char) (acc : List (String × Json)) :
    Option (Json × List Char) :=
  match fuel with
  | 0 => none
  | fuel + 1 =>
    match cs with
    | [] => none
    | c :: rest =>
      if c = rbrace ∧ acc.isEmpty then some (Json.obj [], rest)
      else if c = '"' then
        match parseJStr (rest.length + 1) rest [] with
        | some (k, r1) =>
          match skipJWs r1 with
          | ':' :: r2 =>
            match parseJVal fuel (skipJWs r2) with
            | some (v, r3) =>
              let acc' := jUpsert acc k v
              match skipJWs r3 with
              | ',' :: r4 => parseJObj fuel (skipJWs r4) acc'
              | d :: r4 => if d = rbrace then some (Json.obj acc', r4) else none
              | [] => none
            | none => none
          | _ => none
        | none => none
      else none

/-- Array elements (cs points just after a consumed bracket and whitespace). -/
def parseJArr (fuel : Nat) (cs : List Char) (acc : List Json) :
    Option (Json × List Char) :=
  match fuel with
  | 0 => none
  | fuel + 1 =>
    match cs with
    | [] => none
    | c :: rest =>
      if c = ']' ∧ acc.isEmpty then some (Json.arr [], rest)
      else
        match parseJVal fuel (c :: rest) with
        | some (v, r1) =>
          match skipJWs r1 with
          | ',' :: r2 => parseJArr fuel (skipJWs r2) (acc ++ [v])
          | ']' :: r2 => some (Json.arr (acc ++ [v]), r2)
          | _ => none
        | none => none

end

/-- JSON.parse model: parse one value surrounded by whitespace; any leftover
input is a failure (a thrown SyntaxError in JavaScript). -/
def jsonParse (s : String) : Option Json :=
  match parseJVal (s.length * 2 + 8) (skipJWs s.toList) with
  | some (v, rest) => if skipJWs rest = [] then some v else none
  | none => none

/-! ### parseSourceCode (sourceParser.js lines 198-260) -/

/-- The value returned by parseSourceCode.  The settings and language keys
are present only on the standard-JSON branch; absence is none. -/
structure ParsedSource where
  type : String
  files : List (String × String)
  settings : Option Json
  language : Option String
deriving Repr

def singleFileResult (source : String) : ParsedSource :=
  ⟨"single-file", [("contract.sol", source)], none, none⟩

/-- Object.entries of the value under the sources key (the key is only
truthiness-checked, so non-object shapes reach Object.entries: an array
gives indexed entries, a string gives indexed characters, numbers and
booleans give nothing). -/
def jsEntries : Json → List (String × Json)
  | Json.obj kvs => kvs
  | Json.arr xs => xs.enum.map (fun p => (toString p.1, p.2))
  | Json.str s => s.toList.enum.map (fun p => (toString p.1, Json.str (String.mk [p.2])))
  | _ => []

/-- fileData.content with the or-empty fallback of the sources branch.
Reading .content from a non-object gives undefined, hence the empty string.
A truthy non-string content value (never produced by the registry) is not
modelled and also maps to the empty string. -/
def contentOrEmpty : Json → String
  | Json.obj kvs =>
    match jLookup kvs "content" with
    | some (Json.str s) => s
    | _ => ""
  | _ => ""

/-- One entry of the flat-object branch: a string value is the content; an
object value contributes its truthy string .content; anything else is
skipped.  (null values are handled one level up, because reading .content
from null throws.) -/
def flatEntry (kv : String × Json) : Option (String × String) :=
  match kv.2 with
  | Json.str s => some (kv.1, s)
  | Json.obj kvs =>
    match jLookup kvs "content" with
    | some (Json.str s) => if s ≠ "" then some (kv.1, s) else none
    | _ => none
  | _ => none

/-- The two multi-file branches, taken when JSON.parse succeeded on an
object.  Reading .content from a null fileData throws a TypeError, which
the surrounding try/catch converts to the single-file fallback on the
ORIGINAL input. -/
def parseJsonObject (source : String) (kvs : List (String × Json)) : ParsedSource :=
  match jLookup kvs "sources" with
  | some sources =>
    if jsTruthy sources then
      if (jsEntries sources).any (fun e => jIsNull e.2) then singleFileResult source
      else
        { type := "multi-file"
          files := (jsEntries sources).map (fun e => (e.1, contentOrEmpty e.2))
          settings := some (match jLookup kvs "settings" with
            | some v => if jsTruthy v then v else Json.obj []
            | none => Json.obj [])
          language := some (match jLookup kvs "language" with
            | some (Json.str l) => if l ≠ "" then l else "Solidity"
            | _ => "Solidity") }
    else
      if kvs.any (fun e => jIsNull e.2) then singleFileResult source
      else ⟨"multi-file", kvs.filterMap flatEntry, none, none⟩
  | none =>
    if kvs.any (fun e => jIsNull e.2) then singleFileResult source
    else ⟨"multi-file", kvs.filterMap flatEntry, none, none⟩

/-- The double-brace unwrap: Etherscan wraps some payloads in an extra
brace pair; exactly one layer is removed. -/
def unwrapBraces (t : String) : String :=
  if strStarts t ("\x7b\x7b") && strEnds t ("\x7d\x7d") then strDropLast (strDropFirst t 1) 1 else t

def parseNonEmpty (source : String) : ParsedSource :=
  if strStarts (unwrapBraces (jsTrimStr source)) ("\x7b") then
    match jsonParse (unwrapBraces (jsTrimStr source)) with
    | some (Json.obj kvs) => parseJsonObject source kvs
    | some _ => singleFileResult source
    | none => singleFileResult source
  else singleFileResult source

/-- parseSourceCode.  A null/undefined argument is modelled by the empty
string (both are falsy, like the empty string). -/
def parseSourceCode (sourceCode : String) : ParsedSource :=
  if sourceCode = "" then ⟨"empty", [], none, none⟩
  else parseNonEmpty sourceCode

/-! ### Audit exclusion (sourceParser.js lines 267-269) and pure-interface
detection (lines 425-439) -/

/-- The value returned by shouldExcludeFromAudit.  The live function only
ever sets the first two keys; warning and note model the optional keys of
the commented-out variant and are always absent here. -/
structure ExclusionResult where
  shouldExclude : Bool
  reason : String
  warning : Option String
  note : Option String
deriving Repr, DecidableEq

/-- shouldExcludeFromAudit: the function in the shipped source is a stub
that excludes nothing (the pattern-table variant below it is commented
out). -/
def shouldExcludeFromAudit (_filePath : String) : ExclusionResult :=
  ⟨false, "custom-contract", none, none⟩

/-- Test of the regex \binterface\s+\w+ — after the word boundary and the
literal there must be at least one whitespace character and the first
non-whitespace character after the run must be a word character. -/
def interfaceAfter (cs : List Char) : Bool :=
  match cs with
  | [] => false
  | c :: rest =>
    isJsSpace c &&
      (match (c :: rest).dropWhile isJsSpace with
       | d :: _ => isWordChar d
       | [] => false)

def interfaceScan (prevWord : Bool) : List Char → Bool
  | [] => false
  | c :: rest =>
    (!prevWord &&
      (match matchLit ("interface".toList) (c :: rest) with
       | some r => interfaceAfter r
       | none => false))
    || interfaceScan (isWordChar c) rest

/-- Test of the whole regex: interface declaration present. -/
def hasInterfaceDecl (cs : List Char) : Bool :=
  interfaceScan false cs

/-- The [^}]+\} tail of the function-body regex: the first closing brace of
the remainder exists and is not in the first position. -/
def closeCheck (cs : List Char) : Bool :=
  match cs with
  | [] => false
  | d :: rest => d ≠ rbrace && rest.contains rbrace

/-- The [^;]*\{[^}]+\} tail: some opening brace is reachable without
crossing a semicolon and is followed by a non-empty brace-free run and a
closing brace. -/
def openCloseScan : List Char → Bool
  | [] => false
  | c :: rest =>
    if c = ';' then false
    else if c = lbrace then closeCheck rest || openCloseScan rest
    else openCloseScan rest

/-- One candidate position of /function\s+\w+[^;]*\{[^}]+\}/ (no word
boundary in the source regex). -/
def fnBodyHere (cs : List Char) : Bool :=
  match matchLit ("function".toList) cs with
  | some r =>
    (match r with
     | c :: _ =>
       isJsSpace c &&
         (match r.dropWhile isJsSpace with
          | d :: r2 => isWordChar d && openCloseScan r2
          | [] => false)
     | [] => false)
  | none => false

def fnBodyScan : List Char → Bool
  | [] => false
  | c :: rest => fnBodyHere (c :: rest) || fnBodyScan rest

/-- isPureInterface: strip comments, require an interface declaration and
the absence of any function body. -/
def isPureInterface (content : String) : Bool :=
  let w := (stripSolidityComments content).toList
  if !hasInterfaceDecl w then false
  else !fnBodyScan w

/-! ### categorizeFilesForAudit (sourceParser.js lines 523-567) -/

structure WarningEntry where
  file : String
  warning : String
  reason : String
deriving Repr, DecidableEq

structure Categories where
  mainContract : Option String
  criticalFiles : List String
  redFlagFiles : List String
  dependencies : List String
  interfaces : List String
  excluded : List String
  excludedReasons : List (String × String)
  warnings : List WarningEntry
deriving Repr, DecidableEq

/-- The per-file loop; entries are prepended to the classification of the
remaining files, which preserves the push order of the JavaScript loop. -/
def categorizeGo (mc : Option String) : List (String × String) → Categories
  | [] => ⟨mc, [], [], [], [], [], [], []⟩
  | (filePath, content) :: rest =>
    let cats := categorizeGo mc rest
    let exclusion := shouldExcludeFromAudit filePath
    match exclusion.warning with
    | some w =>
      { cats with
        warnings := ⟨filePath, w, exclusion.reason⟩ :: cats.warnings
        redFlagFiles := filePath :: cats.redFlagFiles
        criticalFiles := filePath :: cats.criticalFiles }
    | none =>
      if exclusion.shouldExclude then
        { cats with
          excluded := filePath :: cats.excluded
          excludedReasons := (filePath, exclusion.reason) :: cats.excludedReasons }
      else if mc == some filePath then cats
      else if isPureInterface content then
        { cats with
          interfaces := filePath :: cats.interfaces
          warnings :=
            match exclusion.note with
            | some n => ⟨filePath, n, "interface-review"⟩ :: cats.warnings
            | none => cats.warnings }
      else { cats with criticalFiles := filePath :: cats.criticalFiles }

def categorizeFilesForAudit (files : List (String × String)) (mainContract : Option String) :
    Categories :=
  categorizeGo mainContract files

/-! ### Blacklist (sourceParser.js lines 148-190)

The configuration file is an external input: its presence and parsed shape
are a parameter.  A missing file, or any read/parse error, makes
loadBlacklist return the empty list. -/

structure BlacklistConfig where
  contractFileNames : Option (List String)

def loadBlacklist (cfg : Option BlacklistConfig) : List String :=
  match cfg with
  | some c => c.contractFileNames.getD []
  | none => []

def replaceBackslash (s : String) : String :=
  String.mk (s.toList.map (fun c => if c = '\\' then '/' else c))

/-- isBlacklisted: falsy path short-circuits; the path is normalized to
forward slashes, then any configured substring match blacklists it. -/
def isBlacklisted (cfg : Option BlacklistConfig) (filePath : String) : Bool :=
  if filePath = "" then false
  else
    let blacklist := loadBlacklist cfg
    if blacklist.isEmpty then false
    else blacklist.any (fun pat => hasSub (replaceBackslash filePath).toList pat.toList)

/-! ### detectMainContract (sourceParser.js lines 448-515) -/

/-- path.basename, posix flavour: trailing slashes are ignored, the portion
after the last remaining slash is returned.  (The all-slash and empty corner
cases follow Node.) -/
def basename (p : String) : String :=
  let cs := p.toList
  let t := (cs.reverse.dropWhile (· = '/'))
  if t.isEmpty then (if cs.isEmpty then "" else "/")
  else String.mk ((t.takeWhile (· ≠ '/')).reverse)

/-- path.basename with an extension argument: the suffix is removed unless
it equals the whole basename (Node behaviour). -/
def basenameExt (p ext : String) : String :=
  let b := basename p
  if b ≠ ext ∧ strEnds b ext then strDropLast b ext.length else b

/-- Test of the dynamically built regex \b(?:contract|library)\s+NAME\b for
an identifier NAME (registry contract names are Solidity identifiers; names
containing regex metacharacters are not modelled). -/
def contractDeclAfter (name : List Char) (cs : List Char) : Bool :=
  match cs with
  | [] => false
  | c :: rest =>
    isJsSpace c &&
      (match matchLit name ((c :: rest).dropWhile isJsSpace) with
       | some r =>
         (match r with
          | [] => true
          | d :: _ => !isWordChar d)
       | none => false)

def contractDeclScan (name : List Char) (prevWord : Bool) : List Char → Bool
  | [] => false
  | c :: rest =>
    (!prevWord &&
      (match matchLit ("contract".toList) (c :: rest) with
       | some r => contractDeclAfter name r
       | none =>
         match matchLit ("library".toList) (c :: rest) with
         | some r => contractDeclAfter name r
         | none => false))
    || contractDeclScan name (isWordChar c) rest

def hasContractDecl (name : String) (content : String) : Bool :=
  contractDeclScan name.toList false content.toList

/-- The last offset at or before lim where the literal external (tried
first, as in the alternation) or public matches; returns the offset and the
literal length.  This realizes the greedy backtracking of [^{]* in
/function\s+\w+[^{]*(?:external|public)/. -/
def findLastPubExt : List Char → Nat → Nat → Option (Nat × Nat) → Option (Nat × Nat)
  | cs, remaining, o, best =>
    let best' :=
      if (matchLit ("external".toList) cs).isSome then some (o, 8)
      else if (matchLit ("public".toList) cs).isSome then some (o, 6)
      else best
    match remaining, cs with
    | 0, _ => best'
    | _, [] => best'
    | rem + 1, _ :: t => findLastPubExt t rem (o + 1) best'

/-- One match attempt of /function\s+\w+[^{]*(?:external|public)/ at the
head of cs; on success returns the remainder after the match end (which is
where the g-flag scan resumes). -/
def matchPubFnAt (cs : List Char) : Option (List Char) :=
  match matchLit ("function".toList) cs with
  | none => none
  | some r0 =>
    match r0 with
    | [] => none
    | c :: _ =>
      if !isJsSpace c then none
      else
        match r0.dropWhile isJsSpace with
        | [] => none
        | d :: bigR =>
          if !isWordChar d then none
          else
            let lim := (bigR.takeWhile (· ≠ lbrace)).length
            match findLastPubExt bigR lim 0 none with
            | some (o, len) => some (bigR.drop (o + len))
            | none => none

def countPubFnGo : Nat → List Char → Nat
  | 0, _ => 0
  | _ + 1, [] => 0
  | fuel + 1, c :: rest =>
    match matchPubFnAt (c :: rest) with
    | some r => 1 + countPubFnGo fuel r
    | none => countPubFnGo fuel rest

/-- The match count of the global public-function regex, the value of
(content.match(...) or []).length.  Every counted match consumes at least
one character, so the fuel never runs out. -/
def countPubFn (content : String) : Nat :=
  countPubFnGo (content.length + 1) content.toList

/-- detectMainContract: four strategies, first hit wins per entry in the
iteration order of the file map. -/
def detectMainContract (files : List (String × String)) (contractName : String)
    (contractFileName : Option String) : Option String :=
  let s1 : Option String :=
    match contractFileName with
    | some f =>
      if f ≠ "" then
        files.findSome? (fun pc =>
          if strEnds pc.1 f || basename pc.1 == f then some pc.1 else none)
      else none
    | none => none
  match s1 with
  | some p => some p
  | none =>
    let s2 : Option String :=
      if contractName ≠ "" then
        files.findSome? (fun pc =>
          if basenameExt pc.1 (".sol") == contractName
              || hasContractDecl contractName pc.2 then some pc.1 else none)
      else none
    match s2 with
    | some p => some p
    | none =>
      let s3 :=
        (files.foldl
          (fun (acc : Option String × Nat) pc =>
            if (shouldExcludeFromAudit pc.1).shouldExclude then acc
            else if pc.2.length > acc.2 then (some pc.1, pc.2.length) else acc)
          (none, 0)).1
      match s3 with
      | some p => some p
      | none =>
        (files.foldl
          (fun (acc : Option String × Nat) pc =>
            if (shouldExcludeFromAudit pc.1).shouldExclude then acc
            else
              let n := countPubFn pc.2
              if n > acc.2 then (some pc.1, n) else acc)
          (none, 0)).1

/-! ### saveSourceFiles (sourceParser.js lines 695-842)

The filesystem is modelled at the file level: a list of path-content pairs,
where a write replaces an existing entry at the same path.  Directory
creation and the empty-directory pruning pass act only on directories and
are not modelled.  The audit manifest is written as structured data (its
JSON rendering carries the same three fields). -/

structure AuditManifest where
  mainContract : String
  mainContractPath : Option String
  contractType : String
deriving Repr, DecidableEq

inductive FileContent where
  | text : String → FileContent
  | manifestData : AuditManifest → FileContent
deriving Repr, DecidableEq

abbrev Disk := List (String × FileContent)

def diskWrite (disk : Disk) (p : String) (c : FileContent) : Disk :=
  if disk.any (fun e => e.1 == p) then
    disk.map (fun e => if e.1 == p then (p, c) else e)
  else disk ++ [(p, c)]

def diskHas (disk : Disk) (p : String) : Bool :=
  disk.any (fun e => e.1 == p)

def diskRemove (disk : Disk) (p : String) : Disk :=
  disk.filter (fun e => e.1 != p)

/-- path.join of the fixed output root, chain and address (the module-level
OUTPUT_DIR prefix outside the repository is a constant and is omitted). -/
def baseDirOf (chainName contractAddress : String) : String :=
  chainName ++ "/" ++ contractAddress

/-- The directory files of one save pass go into: the base directory, with
a proxy/ or implementation/ level for those contract types. -/
def saveDirOf (chainName contractAddress contractType : String) : String :=
  if contractType = "proxy" then baseDirOf chainName contractAddress ++ "/proxy"
  else if contractType = "implementation" then
    baseDirOf chainName contractAddress ++ "/implementation"
  else baseDirOf chainName contractAddress

/-- Leading-slash normalization of a file key (only one slash is removed,
as in the JavaScript). -/
def normLead (p : String) : String :=
  if strStarts p ("/") then strDropFirst p 1 else p

/-- path.join of the save directory and the normalized relative path. -/
def joinPath (dir rel : String) : String :=
  dir ++ "/" ++ rel

structure SaveState where
  disk : Disk
  savedFiles : List String
  excludedFiles : List String
  excludedReasons : List (String × String)
  keptFiles : List String
  blacklistedFiles : List String
  deletedFiles : List String
deriving Repr

/-- Phase 1 of saveSourceFiles: iterate the parsed files; blacklisted paths
are skipped before any write; everything else is written (with comments
stripped from .sol files) and tagged kept or excluded. -/
def savePhase1 (cfg : Option BlacklistConfig) (dir : String) :
    List (String × String) → SaveState → SaveState
  | [], st => st
  | (filePath, content) :: rest, st =>
    let np := normLead filePath
    if isBlacklisted cfg np then
      savePhase1 cfg dir rest
        { st with
          blacklistedFiles := st.blacklistedFiles ++ [np]
          excludedFiles := st.excludedFiles ++ [np]
          excludedReasons := st.excludedReasons ++ [(np, "blacklisted-vendor-library")] }
    else
      let exclusion := shouldExcludeFromAudit np
      let fullPath := joinPath dir np
      let processed := if strEnds np (".sol") then stripSolidityComments content else content
      let st' :=
        { st with
          disk := diskWrite st.disk fullPath (FileContent.text processed)
          savedFiles := st.savedFiles ++ [fullPath] }
      if exclusion.shouldExclude && exclusion.warning.isNone then
        savePhase1 cfg dir rest
          { st' with
            excludedFiles := st'.excludedFiles ++ [np]
            excludedReasons := st'.excludedReasons ++ [(np, exclusion.reason)] }
      else
        savePhase1 cfg dir rest { st' with keptFiles := st'.keptFiles ++ [np] }

/-- Remove the first occurrence (the findIndex-splice pair). -/
def removeFirst (l : List String) (x : String) : List String :=
  match l with
  | [] => []
  | a :: rest => if a = x then rest else a :: removeFirst rest x

/-- Phase 2: delete the excluded files that are on disk.  path.relative of a
saved path against the save directory recovers the relative path the file
was joined from, so the savedFiles entry removed is the joined path. -/
def savePhase2 (dir : String) : List String → SaveState → SaveState
  | [], st => st
  | ex :: rest, st =>
    let fullPath := joinPath dir ex
    if diskHas st.disk fullPath then
      savePhase2 dir rest
        { st with
          disk := diskRemove st.disk fullPath
          deletedFiles := st.deletedFiles ++ [ex]
          savedFiles := removeFirst st.savedFiles fullPath }
    else savePhase2 dir rest st

structure SaveResult where
  outputDir : String
  savedFiles : List String
  deletedFiles : List String
  blacklistedFiles : List String
  keptFiles : List String
  excludedReasons : List (String × String)
  auditManifest : AuditManifest
deriving Repr

/-- saveSourceFiles: both phases, then the audit manifest write.  The
filesystem before the call is the disk argument; the updated filesystem is
returned next to the result object. -/
def saveSourceFiles (cfg : Option BlacklistConfig) (chainName contractAddress : String)
    (parsedFiles : List (String × String)) (contractName : String)
    (contractType : String) (contractFileName : Option String) (disk : Disk) :
    SaveResult × Disk :=
  let dir := saveDirOf chainName contractAddress contractType
  let st1 := savePhase1 cfg dir parsedFiles ⟨disk, [], [], [], [], [], []⟩
  let st2 := savePhase2 dir st1.excludedFiles st1
  let mainContractPath := detectMainContract parsedFiles contractName contractFileName
  let mainContractFileName :=
    match mainContractPath with
    | some p => basename p
    | none => contractName
  let manifest : AuditManifest := ⟨mainContractFileName, mainContractPath, contractType⟩
  let finalDisk :=
    diskWrite st2.disk (joinPath dir ("audit-manifest.json")) (FileContent.manifestData manifest)
  (⟨baseDirOf chainName contractAddress, st2.savedFiles, st2.deletedFiles,
    st2.blacklistedFiles, st2.keptFiles, st2.excludedReasons, manifest⟩, finalDisk)

/-! ### Proxy detection (proxyDetector.js)

The provider of chain reads is an external collaborator; one resolution
pass sees it as three pure functions.  A none result of getStorage or call
is any provider failure or revert (the JavaScript catch branches). -/

structure ChainProvider where
  getCode : Nat → String
  getStorage : Nat → Nat → Option Nat
  call : Nat → String → Option String

structure SourceData where
  isVerified : Bool
  isProxy : Bool
  implementation : String
  sourceCode : String
  constructorArguments : String
deriving Repr

/-- ProxyResolution.  detectionMethod is none when the JavaScript object
carries no such key. -/
structure ProxyResult where
  isProxy : Bool
  proxyAddress : Nat
  implementationAddress : Option Nat
  detectionMethod : Option String
  error : Option String
deriving Repr, DecidableEq

def EIP_1967_LOGIC_SLOT : Nat :=
  0x360894a13ba1a3210667c828492db98dca3e2076cc3735a920a3ca505d382bbc

def EIP_1967_BEACON_SLOT : Nat :=
  0xa3f0ad74e5423aebfd80d3ef4346578335a9a72aeaee59ff6cb3582b35133d50

def OPEN_ZEPPELIN_IMPLEMENTATION_SLOT : Nat :=
  0x7050c9e0f4ca769c69bd3a8ef740bc37934f8e2c036e5a723fd8ee048ed3f8c3

def EIP_1822_LOGIC_SLOT : Nat :=
  0xc5f16f0fcc639fa48a6947836d9850f504798523bf8c9a3a87d5876cf622bcf7

/-- ethers.getAddress on a string: valid iff 0x followed by exactly 40 hex
digits; the value is the 160-bit number.  EIP-55 checksum validation of
mixed-case inputs is not modelled (the checksum requires keccak256; every
input exercised here is single-case, where ethers skips the check). -/
def addrParse (s : String) : Option Nat :=
  match s.toList with
  | '0' :: 'x' :: ds =>
    if ds.length = 40 && ds.all isHexDig then some (hexToNat ds) else none
  | _ => none

/-- readAddressFromSlot: the slot value is right-aligned, the last 20 bytes
are the address; zero means no result.  (The remaining 40 hex characters
always parse, so the catch branch is unreachable.) -/
def readAddressFromSlot (value : Nat) : Option Nat :=
  let a := value % 2 ^ 160
  if a = 0 then none else some a

def tryStorageSlot (env : ChainProvider) (proxyAddress slot : Nat) : Option Nat :=
  match env.getStorage proxyAddress slot with
  | some v => readAddressFromSlot v
  | none => none

def ZERO_ADDRESS_STR : String := "0x0000000000000000000000000000000000000000"

/-- tryContractCall: a failed/reverted call is no answer; a falsy or
zero-address return is no answer; otherwise the checksummed address. -/
def tryContractCall (env : ChainProvider) (proxyAddress : Nat) (methodName : String) :
    Option Nat :=
  match env.call proxyAddress methodName with
  | none => none
  | some s =>
    if s ≠ "" ∧ s ≠ ZERO_ADDRESS_STR then
      match addrParse s with
      | some a => some a
      | none => none
    else none

/-- The last position k in cs with the byte pair 73 and at least 40
characters after it (the greedy [a-f0-9]* of the second EIP-1167 pattern
pushes the capture to the last viable position). -/
def findLast73 : List Char → Nat → Option Nat → Option Nat
  | cs, o, best =>
    let best' :=
      match cs with
      | '7' :: '3' :: rest => if rest.length ≥ 40 then some o else best
      | _ => best
    match cs with
    | [] => best'
    | _ :: t => findLast73 t (o + 1) best'

/-- parseEIP1167Bytecode: an exact standard minimal-proxy template, then a
case-insensitive alternative pattern with a movable embedded address. -/
def parseEIP1167Bytecode (bytecode : String) : Option Nat :=
  let cs := bytecode.toList
  let std : Option Nat :=
    match matchLit ("0x363d3d373d3d3d363d73".toList) cs with
    | some r =>
      let addr := r.take 40
      if addr.length = 40 && addr.all isHexDig then
        match matchLit ("5af43d82803e903d91602b57fd5bf3".toList) (r.drop 40) with
        | some [] => some (hexToNat addr)
        | _ => none
      else none
    | none => none
  match std with
  | some a => some a
  | none =>
    match matchLitCI ("0x36600080376020363660203736".toList) cs with
    | some r =>
      if r.all isHexDig then
        match findLast73 r 0 none with
        | some k => some (hexToNat ((r.drop (k + 2)).take 40))
        | none => none
      else none
    | none => none

/-- The EIP-1967 beacon fallback: read the beacon slot, then ask the beacon
for implementation() and, failing that, childImplementation(). -/
def beaconFallback (env : ChainProvider) (contractAddress : Nat) : Option Nat :=
  match tryStorageSlot env contractAddress EIP_1967_BEACON_SLOT with
  | some beaconAddress =>
    (match tryContractCall env beaconAddress "implementation" with
     | some impl => some impl
     | none => tryContractCall env beaconAddress "childImplementation")
  | none => none

/-- The ordered standard detection chain of detectProxy (lines 278-310), in
source order: EIP-1967 logic slot, OpenZeppelin legacy slot, EIP-1822 slot,
EIP-1167 bytecode, implementation() call, masterCopy() call, EIP-1967
beacon. -/
def detectionMethods (env : ChainProvider) (contractAddress : Nat) (code : String) :
    List (Option Nat) :=
  [ tryStorageSlot env contractAddress EIP_1967_LOGIC_SLOT,
    tryStorageSlot env contractAddress OPEN_ZEPPELIN_IMPLEMENTATION_SLOT,
    tryStorageSlot env contractAddress EIP_1822_LOGIC_SLOT,
    parseEIP1167Bytecode code,
    tryContractCall env contractAddress "implementation",
    tryContractCall env contractAddress "masterCopy",
    beaconFallback env contractAddress ]

/-- The for-loop over the detection methods: first non-null answer wins. -/
def firstSome : List (Option Nat) → Option Nat
  | [] => none
  | o :: rest =>
    match o with
    | some a => some a
    | none => firstSome rest

/-- Priority 1 of detectProxy (lines 262-275): the Etherscan-declared
implementation; an address that fails re-validation is logged and the
shortcut yields nothing (fall-through). -/
def declaredShortcut (contractAddress : Nat) (sourceData : Option SourceData) :
    Option ProxyResult :=
  match sourceData with
  | none => none
  | some sd =>
    if sd.isProxy && sd.implementation ≠ "" then
      match addrParse sd.implementation with
      | some a =>
        some ⟨true, contractAddress, some a, some ("etherscan-api"), none⟩
      | none => none
    else none

/-! ### Source-based heuristic — detectProxyFromSource (lines 144-227)

The three /i regex probes over the verified source text, realized as
character scanners with the backtracking choices resolved as the JavaScript
engine resolves them (maximal munch is forced wherever a character class is
followed by a disjoint literal). -/

/-- One-or-more word characters (\w+), maximal munch. -/
def wd1 : List Char → Option (List Char)
  | [] => none
  | c :: rest => if isWordChar c then some ((c :: rest).dropWhile isWordChar) else none

/-- The [^{]*Proxy tail: the literal proxy (case-insensitive) is reachable
without crossing an opening brace. -/
def scanProxyTail : List Char → Bool
  | [] => false
  | c :: rest =>
    if (matchLitCI ("proxy".toList) (c :: rest)).isSome then true
    else if c = lbrace then false
    else scanProxyTail rest

/-- One candidate position of /contract\s+\w+\s+is\s+[^{]*Proxy/i. -/
def inheritHere (cs : List Char) : Bool :=
  match matchLitCI ("contract".toList) cs >>= sp1 >>= wd1 >>= sp1 >>=
      matchLitCI ("is".toList) with
  | some (c :: rest) => isJsSpace c && scanProxyTail rest
  | _ => false

def inheritScanGo : List Char → Bool
  | [] => false
  | c :: rest => inheritHere (c :: rest) || inheritScanGo rest

/-- Pattern 1: proxy inheritance in the source text. -/
def srcProxyInheritance (sourceCode : String) : Bool :=
  inheritScanGo sourceCode.toList

/-- One candidate position of the _implementation() override signature
regex (pattern 2).  The optional virtual group commits when the literal and
its following whitespace match, which coincides with the backtracking
outcome because override cannot begin with virtual. -/
def implFnHere (cs : List Char) : Bool :=
  let afterView :=
    matchLitCI ("function".toList) cs >>= sp1 >>=
      matchLitCI ("_implementation".toList) >>= (fun r =>
        matchLit ("(".toList) (sp0 r)) >>= (fun r =>
        matchLit (")".toList) (sp0 r)) >>= sp1 >>=
      matchLitCI ("internal".toList) >>= sp1 >>=
      matchLitCI ("view".toList) >>= sp1
  match afterView with
  | none => false
  | some r =>
    let r' :=
      match matchLitCI ("virtual".toList) r >>= sp1 with
      | some r2 => r2
      | none => r
    (matchLitCI ("override".toList) r' >>= sp1 >>=
      matchLitCI ("returns".toList) >>= (fun r2 =>
        matchLit ("(".toList) (sp0 r2)) >>= (fun r2 =>
        matchLitCI ("address".toList) (sp0 r2)) >>= (fun r2 =>
        matchLit (")".toList) (sp0 r2))).isSome

def implFnScanGo : List Char → Bool
  | [] => false
  | c :: rest => implFnHere (c :: rest) || implFnScanGo rest

/-- Pattern 2: an overridden internal view _implementation accessor. -/
def srcImplFn (sourceCode : String) : Bool :=
  implFnScanGo sourceCode.toList

/-- After the storage-slot variable name, the \s*=\s*0x([a-fA-F0-9]{64})
tail; returns the captured 64 hex characters. -/
def slotAssignTail (cs : List Char) : Option (List Char) :=
  match matchLit ("=".toList) (sp0 cs) with
  | some r1 =>
    match matchLitCI ("0x".toList) (sp0 r1) with
    | some r2 =>
      let cap := r2.take 64
      if cap.length = 64 && cap.all isHexDig then some cap else none
    | none => none
  | none => none

/-- The \w*STORAGE[_]?SLOT\w* name: slide over leading word characters
until the storage-slot literal pair matches, then skip the trailing word
run. -/
def nameScan : List Char → Option (List Char)
  | [] => none
  | c :: rest =>
    (match matchLitCI ("storage".toList) (c :: rest) with
     | some r1 =>
       let r1' := match r1 with
         | '_' :: t => t
         | _ => r1
       match matchLitCI ("slot".toList) r1' with
       | some r2 => slotAssignTail (r2.dropWhile isWordChar)
       | none => if isWordChar c then nameScan rest else none
     | none => if isWordChar c then nameScan rest else none)

/-- One candidate position of pattern 3 (the custom storage-slot constant);
returns the captured slot hex. -/
def slotHere (cs : List Char) : Option (List Char) :=
  match matchLitCI ("bytes32".toList) cs >>= sp1 with
  | none => none
  | some r =>
    let r' :=
      match matchLitCI ("public".toList) r >>= sp1 with
      | some r2 => r2
      | none =>
        match matchLitCI ("private".toList) r >>= sp1 with
        | some r2 => r2
        | none => r
    match matchLitCI ("constant".toList) r' >>= sp1 with
    | some r2 => nameScan r2
    | none => none

def slotScanGo : List Char → Option (List Char)
  | [] => none
  | c :: rest =>
    match slotHere (c :: rest) with
    | some cap => some cap
    | none => slotScanGo rest

/-- Pattern 3: sourceCode.match(...) — the leftmost match capture. -/
def srcSlotMatch (sourceCode : String) : Option (List Char) :=
  slotScanGo sourceCode.toList

/-- The non-overlapping global matches of /[a-fA-F0-9]{40}/g over the
constructor-argument string. -/
def hex40RunsGo : Nat → List Char → List (List Char)
  | 0, _ => []
  | _ + 1, [] => []
  | fuel + 1, c :: rest =>
    let cand := (c :: rest).take 40
    if cand.length = 40 && cand.all isHexDig then
      cand :: hex40RunsGo fuel ((c :: rest).drop 40)
    else hex40RunsGo fuel rest

def hex40Runs (cs : List Char) : List (List Char) :=
  hex40RunsGo (cs.length + 1) cs

/-- Has the address deployed code (the truthy, not-0x, not-0x0 check)? -/
def hasDeployedCode (code : String) : Bool :=
  code ≠ "" && code ≠ "0x" && code ≠ "0x0"

/-- The constructor-argument fallback loop: each address-shaped substring
that is itself a deployed contract is asked for implementation(). -/
def ctorArgScan (env : ChainProvider) : List (List Char) → Option Nat
  | [] => none
  | run :: rest =>
    let potentialAddr := hexToNat run
    if hasDeployedCode (env.getCode potentialAddr) then
      match tryContractCall env potentialAddr "implementation" with
      | some impl => some impl
      | none => ctorArgScan env rest
    else ctorArgScan env rest

/-- detectProxyFromSource: the non-standard-proxy heuristic, only reached
when every standard probe gave no answer. -/
def detectProxyFromSource (env : ChainProvider) (proxyAddress : Nat) (sd : SourceData) :
    Option Nat :=
  let sourceCode := sd.sourceCode
  let proxyInheritance := srcProxyInheritance sourceCode
  let hasImplementationFunction := srcImplFn sourceCode
  let storageSlotMatch := srcSlotMatch sourceCode
  if !proxyInheritance && !hasImplementationFunction && storageSlotMatch.isNone then none
  else
    match tryContractCall env proxyAddress "implementation" with
    | some implementation => some implementation
    | none =>
      let fromSlot : Option Nat :=
        match storageSlotMatch with
        | some hex =>
          let customSlot := hexToNat hex
          match tryStorageSlot env proxyAddress customSlot with
          | some slotValue =>
            if hasDeployedCode (env.getCode slotValue) then some slotValue
            else tryContractCall env slotValue "implementation"
          | none => none
        | none => none
      match fromSlot with
      | some impl => some impl
      | none =>
        if sd.constructorArguments ≠ "" then
          ctorArgScan env (hex40Runs sd.constructorArguments.toList)
        else none

/-- Is the fetched code the empty-deployment sentinel? -/
def emptyCode (code : String) : Bool :=
  code == "0x" || code == "0x0"

/-- detectProxy (lines 246-353): existence check, declared-implementation
shortcut, the ordered standard chain, then the source heuristic.  The
provider is already constructed (createProvider throws earlier for an
unsupported chain, outside this resolution). -/
def detectProxy (env : ChainProvider) (contractAddress : Nat)
    (sourceData : Option SourceData) : ProxyResult :=
  if emptyCode (env.getCode contractAddress) then
    ⟨false, contractAddress, none, none, some ("No contract at address")⟩
  else
    match declaredShortcut contractAddress sourceData with
    | some r => r
    | none =>
      match firstSome (detectionMethods env contractAddress (env.getCode contractAddress)) with
      | some implementation => ⟨true, contractAddress, some implementation, none, none⟩
      | none =>
        match sourceData with
        | some sd =>
          if sd.isVerified then
            match detectProxyFromSource env contractAddress sd with
            | some sourceBasedImpl =>
              ⟨true, contractAddress, some sourceBasedImpl, some ("source-code-analysis"), none⟩
            | none => ⟨false, contractAddress, none, none, none⟩
          else ⟨false, contractAddress, none, none, none⟩
        | none => ⟨false, contractAddress, none, none, none⟩

/-! ### Concrete chain environments used to evaluate the proxy claims -/

/-- A chain whose address 7 has code and holds the address abc in its
EIP-1967 logic slot; every call probe reverts. -/
def envEip1967 : ChainProvider :=
  ⟨fun _ => "0x6080",
   fun a s => if a = 7 ∧ s = EIP_1967_LOGIC_SLOT then some 0xabc else none,
   fun _ _ => none⟩

/-- A chain whose address 9 answers only on the EIP-1822 slot; the two
higher-priority slots are empty and the bytecode is not a minimal proxy. -/
def envEip1822 : ChainProvider :=
  ⟨fun _ => "0xdead",
   fun a s => if a = 9 ∧ s = EIP_1822_LOGIC_SLOT then some 0x55 else none,
   fun _ _ => none⟩

/-- A chain with no deployed code anywhere. -/
def envNoCode : ChainProvider :=
  ⟨fun _ => "0x", fun _ _ => none, fun _ _ => none⟩

/-! ## Supporting lemmas -/

theorem dropWhileLen {α : Type} (p : α → Bool) (cs : List α) :
    (cs.dropWhile p).length ≤ cs.length := by
  induction cs with
  | nil => simp
  | cons c rest ih =>
    by_cases h : p c
    · simp only [List.dropWhile_cons, h, if_pos]
      exact Nat.le_succ_of_le ih
    · simp [List.dropWhile_cons, h]

theorem copyString_rest_le (q prev : Char) (cs : List Char) :
    (copyString q prev cs).2.1.length ≤ cs.length := by
  induction cs generalizing prev with
  | nil => simp [copyString]
  | cons c rest ih =>
    simp only [copyString]
    split
    · simp
    · simpa using Nat.le_succ_of_le (ih c)

theorem skipBlock_rest_le (cs : List Char) : ∀ prev, (skipBlock prev cs).1.length ≤ cs.length := by
  induction cs with
  | nil => intro prev; simp [skipBlock]
  | cons a tail ih =>
    intro prev
    match tail with
    | [] => simp [skipBlock]
    | b :: rest =>
      simp only [skipBlock]
      split
      · simp only [List.length_cons]; omega
      · exact Nat.le_succ_of_le (ih a)

/-- Any two ample fuels give the same scan result. -/
theorem stripScan_congr (f : Nat) :
    ∀ (g : Nat) (prev : Option Char) (cs : List Char), cs.length < f → cs.length < g →
      stripScan f prev cs = stripScan g prev cs := by
  induction f with
  | zero => intro g prev cs hf hg; omega
  | succ f ih =>
    intro g prev cs hf hg
    match g, cs with
    | g + 1, [] => rfl
    | g + 1, c :: rest =>
      simp only [stripScan]
      have hlen : rest.length < f ∧ rest.length < g := by
        simp only [List.length_cons] at hf hg
        omega
      split
      · have h1 := copyString_rest_le c c rest
        rw [ih g _ _ (by omega) (by omega)]
      · split
        · have h1 := skipBlock_rest_le rest.tail '*'
          have h2 : rest.tail.length ≤ rest.length := by
            cases rest <;> simp
          rw [ih g _ _ (by omega) (by omega)]
        · split
          · have h1 : (rest.dropWhile (· ≠ '\n')).length ≤ rest.length :=
              dropWhileLen _ _
            have h2 : (rest.dropWhile (· ≠ '\n')).tail.length ≤
                (rest.dropWhile (· ≠ '\n')).length := by
              cases rest.dropWhile (· ≠ '\n') <;> simp
            split
            · rw [ih g _ _ (by omega) (by omega)]
            · rfl
          · rw [ih g _ _ (by omega) (by omega)]


theorem jsTrimList_of_all_space (cs : List Char) (h : cs.all isJsSpace) :
    jsTrimList cs = [] := by
  unfold jsTrimList
  have hd : cs.dropWhile isJsSpace = [] := by
    rw [List.dropWhile_eq_nil_iff]
    intro x hx
    exact List.all_eq_true.mp h x hx
  rw [hd]
  rfl

theorem parseJsonObject_cases (src : String) (kvs : List (String × Json)) :
    parseJsonObject src kvs = singleFileResult src ∨
      (parseJsonObject src kvs).type = "multi-file" := by
  unfold parseJsonObject
  repeat' split
  all_goals
    first
      | exact Or.inl rfl
      | exact Or.inr rfl

theorem parseJsonObject_single_shape (src : String) (kvs : List (String × Json))
    (h : (parseJsonObject src kvs).type = "single-file") :
    parseJsonObject src kvs = singleFileResult src := by
  rcases parseJsonObject_cases src kvs with h1 | h2
  · exact h1
  · rw [h] at h2
    exact absurd h2 (by decide)

theorem parse_single_file_shape (x : String)
    (h : (parseSourceCode x).type = "single-file") :
    parseSourceCode x = singleFileResult x := by
  unfold parseSourceCode at *
  split at h
  · exact absurd h (by decide)
  · rename_i hne
    unfold parseNonEmpty at *
    split at h
    · rename_i hsw
      split at h
      · rename_i kvs _
        rw [if_neg hne, if_pos hsw]
        exact parseJsonObject_single_shape x kvs h
      · rw [if_neg hne, if_pos hsw]
      · rw [if_neg hne, if_pos hsw]
    · rename_i hsw
      rw [if_neg hne, if_neg hsw]

/-! ## Claims C9 and C10 — parseSourceCode -/

/-- Claim C9, counterexample: the whitespace-only input consisting of one
space is NOT parsed to the empty tree; it is treated as a single file whose
content is that space, because the emptiness test compares against the
empty string before trimming. -/
theorem parse_c9_counterexample :
    (parseSourceCode " ").type = "single-file" ∧
      (parseSourceCode " ").files = [("contract.sol", " ")] :=
  ⟨rfl, rfl⟩

/-- Claim C9 as amended: only the exactly-empty input produces the empty
tree; a non-empty input that consists solely of whitespace trims to nothing,
is not attempted as JSON, and becomes a single file named contract.sol
holding the original input. -/
theorem parse_c9_empty_vs_blank :
    parseSourceCode "" = ⟨"empty", [], none, none⟩ ∧
      ∀ s : String, s ≠ "" → s.toList.all isJsSpace = true →
        parseSourceCode s = singleFileResult s := by
  constructor
  · rfl
  · intro s hne hsp
    unfold parseSourceCode
    rw [if_neg hne]
    unfold parseNonEmpty
    have ht : jsTrimStr s = "" := by
      unfold jsTrimStr
      rw [jsTrimList_of_all_space s.toList hsp]
    rw [ht]
    rfl

/-- Witness for parse_c9_empty_vs_blank at the single-space input. -/
theorem parse_c9_empty_vs_blank_witness :
    (" " : String) ≠ "" ∧ (" " : String).toList.all isJsSpace = true ∧
      parseSourceCode " " = singleFileResult " " :=
  ⟨by decide, by decide, parse_c9_empty_vs_blank.2 " " (by decide) (by decide)⟩

/-- Claim C10: whenever parseSourceCode classifies its input as a single
file, the file map is exactly contract.sol mapped to the unmodified input,
and re-parsing that stored content reproduces the same result — parse is
idempotent on already-flat single-file input. -/
theorem parse_c10_single_file_idempotent :
    ∀ x : String, (parseSourceCode x).type = "single-file" →
      (parseSourceCode x).files = [("contract.sol", x)] ∧
        parseSourceCode (((parseSourceCode x).files.lookup "contract.sol").getD "") =
          parseSourceCode x := by
  intro x h
  have hx := parse_single_file_shape x h
  rw [hx]
  refine ⟨rfl, ?_⟩
  have hl : ((singleFileResult x).files.lookup "contract.sol") = some x := by
    simp [singleFileResult, List.lookup]
  rw [hl, Option.getD_some]
  exact hx

/-! ## Claims C7 and C8 — the comment stripper -/

/-- Claim C7 (code bug): on an input whose block comment is never closed,
the skip loop stops one character before the end of the input, so the final
character leaks into the output — here the d of unterminated — instead of
the whole remainder being discarded. -/
theorem strip_c7_unterminated_leak :
    stripSolidityComments "x = 1; /* unterminated" = "x = 1; d\n" := by rfl

theorem copyString_verbatim (q : Char) (rest : List Char) :
    ∀ (body : List Char) (p0 : Char), q ∉ body → '\\' ∉ body → p0 ≠ '\\' →
      copyString q p0 (body ++ q :: rest) = (body ++ [q], rest, q) := by
  intro body
  induction body with
  | nil =>
    intro p0 _ _ hp
    simp [copyString, hp]
  | cons b body ih =>
    intro p0 hq hb _
    have hbq : b ≠ q := by
      intro h
      exact hq (h ▸ List.mem_cons_self b body)
    have hbb : b ≠ '\\' := by
      intro h
      exact hb (h ▸ List.mem_cons_self b body)
    have hqrest : q ∉ body := fun h => hq (List.mem_cons_of_mem b h)
    have hbrest : '\\' ∉ body := fun h => hb (List.mem_cons_of_mem b h)
    simp only [List.cons_append, copyString, List.append_eq]
    rw [if_neg (by
      intro hcontra
      exact hbq hcontra.1)]
    rw [ih b hqrest hbrest hbb]

/-- One scan step at an unescaped opening quote: the literal is emitted
verbatim and the scan resumes after the closing quote with one fuel tick
spent. -/
theorem stripScan_quote_step (f : Nat) (prev : Option Char) (q : Char)
    (body rest : List Char) (hquote : q = '\'' ∨ q = '"') (hprev : prev ≠ some '\\')
    (hq : q ∉ body) (hb : '\\' ∉ body) :
    stripScan (f + 1) prev (q :: (body ++ q :: rest)) =
      q :: (body ++ q :: stripScan f (some q) rest) := by
  have hqb : q ≠ '\\' := by
    rcases hquote with h | h <;> rw [h] <;> decide
  simp only [stripScan]
  rw [if_pos ⟨hquote, hprev⟩]
  rw [copyString_verbatim q rest body q hq hb hqb]
  simp

/-- Claim C8: entering an unescaped quote copies the whole literal verbatim
up to the matching unescaped closing quote — comment-looking markers inside
the literal survive — and on the spec example line the stripper returns the
line unchanged (up to the guaranteed single trailing newline). -/
theorem strip_c8_string_preserved :
    (∀ (prev : Option Char) (q : Char) (body rest : List Char),
        (q = '\'' ∨ q = '"') → prev ≠ some '\\' → q ∉ body → '\\' ∉ body →
        strip0 prev (q :: (body ++ q :: rest)) =
          q :: (body ++ q :: strip0 (some q) rest)) ∧
      stripSolidityComments "string s = \"a // b\";" = "string s = \"a // b\";\n" := by
  constructor
  · intro prev q body rest hquote hprev hq hb
    unfold strip0
    have hlen : (q :: (body ++ q :: rest)).length + 1 = (body.length + rest.length + 2) + 1 := by
      simp only [List.length_cons, List.length_append]
      omega
    rw [hlen]
    rw [stripScan_quote_step (body.length + rest.length + 2) prev q body rest hquote hprev hq hb]
    rw [stripScan_congr (body.length + rest.length + 2) (rest.length + 1) (some q) rest
      (by omega) (by omega)]
  · rfl

/-- Witness for the universal part of strip_c8_string_preserved: a
double-quoted literal containing both comment markers is copied verbatim. -/
theorem strip_c8_string_preserved_witness :
    strip0 none ('"' :: (("a // b /* c */".toList) ++ '"' :: ("; x = 1;".toList))) =
      '"' :: (("a // b /* c */".toList) ++ '"' :: strip0 (some '"') ("; x = 1;".toList)) :=
  strip_c8_string_preserved.1 none '"' ("a // b /* c */".toList) ("; x = 1;".toList)
    (Or.inr rfl) (by decide) (by decide) (by decide)

/-! ## Claims C2 and C3 — the audit classifier -/

theorem categorize_fields (mc : Option String) (files : List (String × String)) :
    (categorizeGo mc files).excluded = [] ∧
      (categorizeGo mc files).redFlagFiles = [] ∧
      (categorizeGo mc files).warnings = [] ∧
      (categorizeGo mc files).dependencies = [] ∧
      (categorizeGo mc files).criticalFiles =
        (files.filter fun pc => !(mc == some pc.1) && !(isPureInterface pc.2)).map Prod.fst ∧
      (categorizeGo mc files).interfaces =
        (files.filter fun pc => !(mc == some pc.1) && isPureInterface pc.2).map Prod.fst := by
  induction files with
  | nil => exact ⟨rfl, rfl, rfl, rfl, rfl, rfl⟩
  | cons pc rest ih =>
    obtain ⟨p, c⟩ := pc
    obtain ⟨ih1, ih2, ih3, ih4, ih5, ih6⟩ := ih
    by_cases h1 : mc == some p
    · simp [categorizeGo, shouldExcludeFromAudit, h1, ih1, ih2, ih3, ih4, ih5, ih6,
        List.filter_cons]
    · by_cases h2 : isPureInterface c
      · simp [categorizeGo, shouldExcludeFromAudit, h1, h2, ih1, ih2, ih3, ih4, ih5, ih6,
          List.filter_cons]
      · simp [categorizeGo, shouldExcludeFromAudit, h1, h2, ih1, ih2, ih3, ih4, ih5, ih6,
          List.filter_cons]

/-- Claim C3: the shipped shouldExcludeFromAudit excludes nothing and flags
nothing, so categorizeFilesForAudit leaves excluded, redFlagFiles and
warnings empty, and every file other than the designated main file and the
pure interfaces is classified critical. -/
theorem categorize_c3_stub_no_exclusions :
    (∀ p : String, shouldExcludeFromAudit p = ⟨false, "custom-contract", none, none⟩) ∧
      ∀ (files : List (String × String)) (mc : Option String),
        (categorizeFilesForAudit files mc).excluded = [] ∧
          (categorizeFilesForAudit files mc).redFlagFiles = [] ∧
          (categorizeFilesForAudit files mc).warnings = [] ∧
          (categorizeFilesForAudit files mc).criticalFiles =
            (files.filter fun pc => !(mc == some pc.1) && !(isPureInterface pc.2)).map
              Prod.fst := by
  refine ⟨fun p => rfl, fun files mc => ?_⟩
  obtain ⟨h1, h2, h3, _, h5, _⟩ := categorize_fields mc files
  exact ⟨h1, h2, h3, h5⟩

/-- Claim C2, counterexample: a file under contracts/vendor/ is NOT given
the redFlag classification and receives no warning; it lands in
criticalFiles, because the red-flag logic of shouldExcludeFromAudit is
disabled in the shipped stub. -/
theorem categorize_c2_counterexample :
    (categorizeFilesForAudit
        [("contracts/vendor/Foo.sol", "contract Foo \x7b uint256 x; \x7d")] none).redFlagFiles
        = [] ∧
      (categorizeFilesForAudit
        [("contracts/vendor/Foo.sol", "contract Foo \x7b uint256 x; \x7d")] none).warnings
        = [] ∧
      (categorizeFilesForAudit
        [("contracts/vendor/Foo.sol", "contract Foo \x7b uint256 x; \x7d")] none).criticalFiles
        = ["contracts/vendor/Foo.sol"] :=
  ⟨rfl, rfl, rfl⟩

/-- Claim C2 as amended: a file under contracts/vendor/ never receives an
exclusion classification and is always kept — as the designated main file,
an interface, or a critical file — but it is not tagged redFlag and no
warning is attached, because the red-flag rules are disabled in the shipped
stub. -/
theorem categorize_c2_vendor_kept :
    ∀ (files : List (String × String)) (mc : Option String) (p c : String),
      (p, c) ∈ files → strStarts p ("contracts/vendor/") = true →
      (categorizeFilesForAudit files mc).excluded = [] ∧
        p ∉ (categorizeFilesForAudit files mc).redFlagFiles ∧
        (categorizeFilesForAudit files mc).warnings = [] ∧
        (mc = some p ∨ p ∈ (categorizeFilesForAudit files mc).interfaces ∨
          p ∈ (categorizeFilesForAudit files mc).criticalFiles) := by
  intro files mc p c hmem _
  obtain ⟨h1, h2, h3, _, h5, h6⟩ := categorize_fields mc files
  unfold categorizeFilesForAudit
  refine ⟨h1, by rw [h2]; exact List.not_mem_nil p, h3, ?_⟩
  by_cases hm : mc == some p
  · exact Or.inl (by simpa using hm)
  · by_cases hi : isPureInterface c
    · refine Or.inr (Or.inl ?_)
      rw [h6]
      exact List.mem_map_of_mem Prod.fst
        (List.mem_filter.2 ⟨hmem, by simp [hm, hi]⟩)
    · refine Or.inr (Or.inr ?_)
      rw [h5]
      exact List.mem_map_of_mem Prod.fst
        (List.mem_filter.2 ⟨hmem, by simp [hm, hi]⟩)

/-- Witness for categorize_c2_vendor_kept on a one-file tree. -/
theorem categorize_c2_vendor_kept_witness :
    (categorizeFilesForAudit [("contracts/vendor/Bar.sol", "library Bar \x7b \x7d")]
        (some "Main.sol")).excluded = [] ∧
      "contracts/vendor/Bar.sol" ∉
        (categorizeFilesForAudit [("contracts/vendor/Bar.sol", "library Bar \x7b \x7d")]
          (some "Main.sol")).redFlagFiles ∧
      (categorizeFilesForAudit [("contracts/vendor/Bar.sol", "library Bar \x7b \x7d")]
        (some "Main.sol")).warnings = [] ∧
      (some "Main.sol" = some "contracts/vendor/Bar.sol" ∨
        "contracts/vendor/Bar.sol" ∈
          (categorizeFilesForAudit [("contracts/vendor/Bar.sol", "library Bar \x7b \x7d")]
            (some "Main.sol")).interfaces ∨
        "contracts/vendor/Bar.sol" ∈
          (categorizeFilesForAudit [("contracts/vendor/Bar.sol", "library Bar \x7b \x7d")]
            (some "Main.sol")).criticalFiles) :=
  categorize_c2_vendor_kept [("contracts/vendor/Bar.sol", "library Bar \x7b \x7d")]
    (some "Main.sol") "contracts/vendor/Bar.sol" "library Bar \x7b \x7d"
    (List.mem_singleton.2 rfl) (by rfl)

/-- Witness for parse_c10_single_file_idempotent at a plain Solidity text. -/
theorem parse_c10_single_file_idempotent_witness :
    (parseSourceCode "pragma solidity;").type = "single-file" ∧
      (parseSourceCode "pragma solidity;").files = [("contract.sol", "pragma solidity;")] ∧
      parseSourceCode
          (((parseSourceCode "pragma solidity;").files.lookup "contract.sol").getD "") =
        parseSourceCode "pragma solidity;" :=
  ⟨by rfl,
   (parse_c10_single_file_idempotent "pragma solidity;" (by rfl)).1,
   (parse_c10_single_file_idempotent "pragma solidity;" (by rfl)).2⟩

/-! ## Claims C1, C4 and C6 — the proxy resolution chain -/

theorem firstSome_of_prefix_none (l : List (Option Nat)) :
    ∀ (k a : Nat), l[k]? = some (some a) → (∀ j, j < k → l[j]? = some none) →
      firstSome l = some a := by
  induction l with
  | nil =>
    intro k a h _
    simp at h
  | cons o rest ih =>
    intro k a h hj
    match k with
    | 0 =>
      simp only [List.getElem?_cons_zero, Option.some_inj] at h
      rw [h]
      rfl
    | k + 1 =>
      have h0 := hj 0 (Nat.succ_pos k)
      simp only [List.getElem?_cons_zero, Option.some_inj] at h0
      rw [h0]
      simp only [firstSome]
      exact ih k a (by simpa using h) (fun j hjk => by
        have := hj (j + 1) (by omega)
        simpa using this)

theorem firstSome_isSome_of_mem (l : List (Option Nat)) :
    ∀ (k a : Nat), l[k]? = some (some a) → ∃ b, firstSome l = some b := by
  induction l with
  | nil =>
    intro k a h
    simp at h
  | cons o rest ih =>
    intro k a h
    match o with
    | some b => exact ⟨b, rfl⟩
    | none =>
      match k with
      | 0 => simp at h
      | k + 1 =>
        obtain ⟨b, hb⟩ := ih k a (by simpa using h)
        exact ⟨b, by simpa [firstSome] using hb⟩

theorem firstSome_agree (n : Nat) :
    ∀ (l l' : List (Option Nat)), l.take n = l'.take n →
      (∃ k, k < n ∧ ∃ a, l[k]? = some (some a)) → firstSome l = firstSome l' := by
  induction n with
  | zero =>
    intro l l' _ hex
    obtain ⟨k, hk, _⟩ := hex
    omega
  | succ n ih =>
    intro l l' htake hex
    match l, l' with
    | [], _ =>
      obtain ⟨k, _, a, hka⟩ := hex
      simp at hka
    | _ :: _, [] =>
      simp at htake
    | o :: rest, o' :: rest' =>
      simp only [List.take_succ_cons, List.cons.injEq] at htake
      obtain ⟨ho, hrest⟩ := htake
      subst ho
      match o with
      | some a => rfl
      | none =>
        simp only [firstSome]
        refine ih rest rest' hrest ?_
        obtain ⟨k, hk, a, hka⟩ := hex
        match k with
        | 0 => simp at hka
        | k + 1 => exact ⟨k, by omega, a, by simpa using hka⟩

/-- Claim C1, counterexample: on a chain whose EIP-1967 logic slot holds a
valid non-zero address, detectProxy does return that implementation address,
but the returned resolution carries NO method tag at all (the
detectionMethod key is absent), not the tag eip1967 the claim requires. -/
theorem detectProxy_c1_counterexample :
    (detectProxy envEip1967 7 none).implementationAddress = some 0xabc ∧
      (detectProxy envEip1967 7 none).detectionMethod = none :=
  ⟨rfl, rfl⟩

/-- Claim C1 as amended: when the declared-implementation shortcut does not
fire and the EIP-1967 logic slot (the first standard probe) yields an
address, detectProxy returns isProxy with exactly the address stored in the
slot, but records no method tag — only the etherscan-api shortcut and the
source-analysis fallback ever set detectionMethod. -/
theorem detectProxy_c1_no_method_tag :
    ∀ (env : ChainProvider) (addr : Nat) (sd : Option SourceData) (a : Nat),
      emptyCode (env.getCode addr) = false →
      declaredShortcut addr sd = none →
      tryStorageSlot env addr EIP_1967_LOGIC_SLOT = some a →
      detectProxy env addr sd = ⟨true, addr, some a, none, none⟩ := by
  intro env addr sd a hcode hshort hslot
  unfold detectProxy
  rw [hcode]
  simp only [Bool.false_eq_true, if_false, hshort]
  have hfs : firstSome (detectionMethods env addr (env.getCode addr)) = some a := by
    unfold detectionMethods
    rw [hslot]
    rfl
  rw [hfs]

/-- Witness for detectProxy_c1_no_method_tag on the concrete EIP-1967
chain. -/
theorem detectProxy_c1_no_method_tag_witness :
    detectProxy envEip1967 7 none = ⟨true, 7, some 0xabc, none, none⟩ :=
  detectProxy_c1_no_method_tag envEip1967 7 none 0xabc (by rfl) (by rfl) (by rfl)

/-- Claim C6: an address whose bytecode fetch comes back empty is reported,
not thrown: isProxy is false, the implementation address is null and the
error field identifies the no-contract-at-address condition. -/
theorem detectProxy_c6_empty_bytecode :
    ∀ (env : ChainProvider) (addr : Nat) (sd : Option SourceData),
      emptyCode (env.getCode addr) = true →
      detectProxy env addr sd =
        ⟨false, addr, none, none, some ("No contract at address")⟩ := by
  intro env addr sd h
  unfold detectProxy
  rw [h]
  rfl

/-- Witness for detectProxy_c6_empty_bytecode on the codeless chain. -/
theorem detectProxy_c6_empty_bytecode_witness :
    detectProxy envNoCode 3 none =
      ⟨false, 3, none, none, some ("No contract at address")⟩ :=
  detectProxy_c6_empty_bytecode envNoCode 3 none (by rfl)

/-- Claim C4: the resolution chain is the fixed priority order — declared
implementation first (trusted immediately when it re-validates, while an
invalid declared value falls through to the probes), then the seven
standard probes in source order with short-circuiting: the first probe to
answer determines the result, a probe is reached only when every earlier
probe answered nothing, and probes after the first success cannot influence
the result (two chains that agree up to a successful probe resolve
identically). -/
theorem detectProxy_c4_priority_chain :
    (∀ (env : ChainProvider) (addr : Nat) (sd : SourceData) (a : Nat),
        emptyCode (env.getCode addr) = false →
        sd.isProxy = true → sd.implementation ≠ "" →
        addrParse sd.implementation = some a →
        detectProxy env addr (some sd) =
          ⟨true, addr, some a, some ("etherscan-api"), none⟩) ∧
      (∀ (sd : SourceData) (addr : Nat),
        addrParse sd.implementation = none →
        declaredShortcut addr (some sd) = none) ∧
      (∀ (env : ChainProvider) (addr : Nat) (sd : Option SourceData) (k a : Nat),
        emptyCode (env.getCode addr) = false →
        declaredShortcut addr sd = none →
        (detectionMethods env addr (env.getCode addr))[k]? = some (some a) →
        (∀ j, j < k → (detectionMethods env addr (env.getCode addr))[j]? = some none) →
        detectProxy env addr sd = ⟨true, addr, some a, none, none⟩) ∧
      (∀ (env env' : ChainProvider) (addr : Nat) (sd : Option SourceData) (k a : Nat),
        env.getCode addr = env'.getCode addr →
        (detectionMethods env addr (env.getCode addr)).take (k + 1) =
          (detectionMethods env' addr (env'.getCode addr)).take (k + 1) →
        (detectionMethods env addr (env.getCode addr))[k]? = some (some a) →
        detectProxy env addr sd = detectProxy env' addr sd) := by
  refine ⟨?_, ?_, ?_, ?_⟩
  · intro env addr sd a hcode hproxy hne hparse
    have hds : declaredShortcut addr (some sd) =
        some ⟨true, addr, some a, some ("etherscan-api"), none⟩ := by
      simp only [declaredShortcut]
      rw [if_pos (by simp [hproxy, hne])]
      rw [hparse]
    unfold detectProxy
    rw [hcode]
    simp only [Bool.false_eq_true, if_false, hds]
  · intro sd addr hparse
    simp only [declaredShortcut]
    split
    · rw [hparse]
    · rfl
  · intro env addr sd k a hcode hshort hk hj
    have hfs : firstSome (detectionMethods env addr (env.getCode addr)) = some a :=
      firstSome_of_prefix_none _ k a hk hj
    unfold detectProxy
    rw [hcode]
    simp only [Bool.false_eq_true, if_false, hshort, hfs]
  · intro env env' addr sd k a hcodeEq htake hk
    have hagree : firstSome (detectionMethods env addr (env.getCode addr)) =
        firstSome (detectionMethods env' addr (env'.getCode addr)) :=
      firstSome_agree (k + 1) _ _ htake ⟨k, by omega, a, hk⟩
    obtain ⟨b, hb⟩ := firstSome_isSome_of_mem _ k a hk
    have hb2 : firstSome (detectionMethods env' addr (env.getCode addr)) = some b := by
      rw [hcodeEq, ← hagree]
      exact hb
    unfold detectProxy
    rw [← hcodeEq, hb, hb2]

/-- Witness for detectProxy_c4_priority_chain: the EIP-1822 probe (third in
the chain) answers after the two slot probes and nothing before it did, and
both the declared-shortcut part and the short-circuit parts apply at
concrete inputs. -/
theorem detectProxy_c4_priority_chain_witness :
    detectProxy envEip1822 9
        (some ⟨true, true, "not-an-address", "", ""⟩) =
      ⟨true, 9, some 0x55, none, none⟩ ∧
      detectProxy envEip1822 9
          (some ⟨true, true, "0x00000000000000000000000000000000000000cc", "", ""⟩) =
        ⟨true, 9, some 0xcc, some ("etherscan-api"), none⟩ :=
  ⟨detectProxy_c4_priority_chain.2.2.1 envEip1822 9
      (some ⟨true, true, "not-an-address", "", ""⟩) 2 0x55 (by rfl)
      (detectProxy_c4_priority_chain.2.1 ⟨true, true, "not-an-address", "", ""⟩ 9 (by rfl))
      (by rfl) (by decide),
   detectProxy_c4_priority_chain.1 envEip1822 9
      ⟨true, true, "0x00000000000000000000000000000000000000cc", "", ""⟩ 0xcc
      (by rfl) rfl (by decide) (by rfl)⟩

/-! ## Claim C5 — the persistence boundary of the blacklist -/

theorem joinPath_inj (dir a b : String) (h : joinPath dir a = joinPath dir b) : a = b := by
  unfold joinPath at h
  have hd : (dir ++ "/" ++ a).data = (dir ++ "/" ++ b).data := by rw [h]
  simp only [String.data_append] at hd
  have := List.append_cancel_left hd
  cases a
  cases b
  exact congrArg String.mk this

theorem diskWrite_mem (d : Disk) (pth : String) (v : FileContent) (e : String × FileContent)
    (h : e ∈ diskWrite d pth v) : e ∈ d ∨ e = (pth, v) := by
  unfold diskWrite at h
  split at h
  · obtain ⟨x, hx, hxe⟩ := List.mem_map.1 h
    by_cases hp : x.1 == pth
    · rw [if_pos hp] at hxe
      exact Or.inr hxe.symm
    · rw [if_neg hp] at hxe
      exact Or.inl (hxe ▸ hx)
  · rcases List.mem_append.1 h with h1 | h2
    · exact Or.inl h1
    · exact Or.inr (by simpa using h2)

theorem diskRemove_sub (d : Disk) (pth : String) (e : String × FileContent)
    (h : e ∈ diskRemove d pth) : e ∈ d :=
  (List.mem_filter.1 h).1

theorem removeFirst_sub (x y : String) : ∀ l : List String, x ∈ removeFirst l y → x ∈ l := by
  intro l
  induction l with
  | nil => intro h; exact h
  | cons a rest ih =>
    intro h
    unfold removeFirst at h
    split at h
    · exact List.mem_cons_of_mem a h
    · rcases List.mem_cons.1 h with h1 | h2
      · exact h1 ▸ List.mem_cons_self a rest
      · exact List.mem_cons_of_mem a (ih h2)

theorem savePhase1_mono_blk (cfg : Option BlacklistConfig) (dir : String) :
    ∀ (files : List (String × String)) (st : SaveState) (x : String),
      x ∈ st.blacklistedFiles → x ∈ (savePhase1 cfg dir files st).blacklistedFiles := by
  intro files
  induction files with
  | nil => intro st x h; exact h
  | cons qd rest ih =>
    intro st x h
    obtain ⟨q, d⟩ := qd
    unfold savePhase1
    dsimp only
    split
    · exact ih _ x (List.mem_append_left _ h)
    · split
      · exact ih _ x h
      · exact ih _ x h

theorem savePhase1_adds_blacklisted (cfg : Option BlacklistConfig) (dir : String) :
    ∀ (files : List (String × String)) (st : SaveState) (p c : String),
      (p, c) ∈ files → isBlacklisted cfg (normLead p) = true →
      normLead p ∈ (savePhase1 cfg dir files st).blacklistedFiles := by
  intro files
  induction files with
  | nil =>
    intro st p c hmem _
    exact absurd hmem (List.not_mem_nil _)
  | cons qd rest ih =>
    intro st p c hmem hbl
    obtain ⟨q, d⟩ := qd
    rcases List.mem_cons.1 hmem with hhead | htail
    · have hq : q = p := congrArg Prod.fst hhead.symm
      subst hq
      unfold savePhase1
      rw [if_pos hbl]
      exact savePhase1_mono_blk cfg dir rest _ _
        (List.mem_append_right _ (List.mem_singleton.2 rfl))
    · unfold savePhase1
      dsimp only
      split
      · exact ih _ p c htail hbl
      · split
        · exact ih _ p c htail hbl
        · exact ih _ p c htail hbl

theorem savePhase1_disk (cfg : Option BlacklistConfig) (dir : String) :
    ∀ (files : List (String × String)) (st : SaveState) (np fc : String),
      isBlacklisted cfg np = true →
      (joinPath dir np, FileContent.text fc) ∈ (savePhase1 cfg dir files st).disk →
      (joinPath dir np, FileContent.text fc) ∈ st.disk := by
  intro files
  induction files with
  | nil => intro st np fc _ h; exact h
  | cons qd rest ih =>
    intro st np fc hbl h
    obtain ⟨q, d⟩ := qd
    unfold savePhase1 at h
    dsimp only at h
    split at h
    · have h2 := ih _ np fc hbl h
      exact h2
    · rename_i hnotbl
      have hstep :
          (joinPath dir np, FileContent.text fc) ∈
            diskWrite st.disk (joinPath dir (normLead q))
              (FileContent.text (if strEnds (normLead q) (".sol") = true
                then stripSolidityComments d else d)) →
          (joinPath dir np, FileContent.text fc) ∈ st.disk := by
        intro hw
        rcases diskWrite_mem _ _ _ _ hw with h1 | h2
        · exact h1
        · have hpq : np = normLead q := joinPath_inj dir np (normLead q)
            (congrArg Prod.fst h2)
          rw [← hpq] at hnotbl
          exact absurd hbl hnotbl
      split at h
      · have h2 := ih _ np fc hbl h
        exact hstep h2
      · have h2 := ih _ np fc hbl h
        exact hstep h2

theorem savePhase1_saved (cfg : Option BlacklistConfig) (dir : String) :
    ∀ (files : List (String × String)) (st : SaveState) (np : String),
      isBlacklisted cfg np = true →
      joinPath dir np ∈ (savePhase1 cfg dir files st).savedFiles →
      joinPath dir np ∈ st.savedFiles := by
  intro files
  induction files with
  | nil => intro st np _ h; exact h
  | cons qd rest ih =>
    intro st np hbl h
    obtain ⟨q, d⟩ := qd
    unfold savePhase1 at h
    dsimp only at h
    split at h
    · have h2 := ih _ np hbl h
      exact h2
    · rename_i hnotbl
      have hstep : joinPath dir np ∈ st.savedFiles ++ [joinPath dir (normLead q)] →
          joinPath dir np ∈ st.savedFiles := by
        intro hw
        rcases List.mem_append.1 hw with h1 | h2
        · exact h1
        · have hpq : np = normLead q := joinPath_inj dir np (normLead q)
            (List.mem_singleton.1 h2)
          rw [← hpq] at hnotbl
          exact absurd hbl hnotbl
      split at h
      · have h2 := ih _ np hbl h
        exact hstep h2
      · have h2 := ih _ np hbl h
        exact hstep h2

theorem savePhase2_blk (dir : String) :
    ∀ (exs : List String) (st : SaveState),
      (savePhase2 dir exs st).blacklistedFiles = st.blacklistedFiles := by
  intro exs
  induction exs with
  | nil => intro st; rfl
  | cons e rest ih =>
    intro st
    unfold savePhase2
    dsimp only
    split
    · exact ih _
    · exact ih _

theorem savePhase2_disk_sub (dir : String) :
    ∀ (exs : List String) (st : SaveState) (e : String × FileContent),
      e ∈ (savePhase2 dir exs st).disk → e ∈ st.disk := by
  intro exs
  induction exs with
  | nil => intro st e h; exact h
  | cons x rest ih =>
    intro st e h
    unfold savePhase2 at h
    dsimp only at h
    split at h
    · exact diskRemove_sub _ _ _ (ih _ e h)
    · exact ih _ e h

theorem savePhase2_saved_sub (dir : String) :
    ∀ (exs : List String) (st : SaveState) (x : String),
      x ∈ (savePhase2 dir exs st).savedFiles → x ∈ st.savedFiles := by
  intro exs
  induction exs with
  | nil => intro st x h; exact h
  | cons e rest ih =>
    intro st x h
    unfold savePhase2 at h
    dsimp only at h
    split at h
    · exact removeFirst_sub _ _ _ (ih _ x h)
    · exact ih _ x h

/-- Claim C5: a file whose normalized path matches a configured blacklist
substring is skipped before any write — it is recorded in blacklistedFiles,
it never enters savedFiles, and nothing is ever written to its on-disk path
during the save (any text entry at that path already existed beforehand);
and with the blacklist configuration source absent, the blacklist degrades
to empty and no path at all is blacklisted. -/
theorem saveSourceFiles_c5_blacklist_never_written :
    (∀ (cfg : Option BlacklistConfig) (chainName contractAddress : String)
        (files : List (String × String)) (contractName contractType : String)
        (contractFileName : Option String) (disk : Disk) (p c : String),
      (p, c) ∈ files →
      isBlacklisted cfg (normLead p) = true →
      normLead p ∈ (saveSourceFiles cfg chainName contractAddress files contractName
          contractType contractFileName disk).1.blacklistedFiles ∧
        joinPath (saveDirOf chainName contractAddress contractType) (normLead p) ∉
          (saveSourceFiles cfg chainName contractAddress files contractName
            contractType contractFileName disk).1.savedFiles ∧
        (∀ fc : String,
          (joinPath (saveDirOf chainName contractAddress contractType) (normLead p),
              FileContent.text fc) ∈
            (saveSourceFiles cfg chainName contractAddress files contractName
              contractType contractFileName disk).2 →
          (joinPath (saveDirOf chainName contractAddress contractType) (normLead p),
              FileContent.text fc) ∈ disk)) ∧
      (∀ q : String, isBlacklisted none q = false) := by
  constructor
  · intro cfg chainName contractAddress files contractName contractType contractFileName
      disk p c hmem hbl
    unfold saveSourceFiles
    dsimp only
    refine ⟨?_, ?_, ?_⟩
    · rw [savePhase2_blk]
      exact savePhase1_adds_blacklisted cfg _ files _ p c hmem hbl
    · intro hsaved
      have h1 := savePhase2_saved_sub _ _ _ _ hsaved
      have h2 := savePhase1_saved cfg _ files _ _ hbl h1
      exact absurd h2 (List.not_mem_nil _)
    · intro fc hdisk
      rcases diskWrite_mem _ _ _ _ hdisk with h1 | h2
      · exact savePhase1_disk cfg _ files _ _ fc hbl (savePhase2_disk_sub _ _ _ _ h1)
      · exact absurd (congrArg Prod.snd h2) (by simp)
  · intro q
    unfold isBlacklisted loadBlacklist
    split
    · rfl
    · rfl

/-- Witness for saveSourceFiles_c5_blacklist_never_written: a configured
blacklist entry keeps the matching vendor file off the disk while the
custom file is written. -/
theorem saveSourceFiles_c5_blacklist_never_written_witness :
    "lib/oz/ERC20.sol" ∈ (saveSourceFiles (some ⟨some ["oz/"]⟩) "ethereum" "0xabc"
        [("contracts/My.sol", "contract My \x7b \x7d"), ("lib/oz/ERC20.sol", "contract E \x7b \x7d")]
        "My" "main" (some "My.sol") []).1.blacklistedFiles ∧
      joinPath (saveDirOf "ethereum" "0xabc" "main") "lib/oz/ERC20.sol" ∉
        (saveSourceFiles (some ⟨some ["oz/"]⟩) "ethereum" "0xabc"
          [("contracts/My.sol", "contract My \x7b \x7d"), ("lib/oz/ERC20.sol", "contract E \x7b \x7d")]
          "My" "main" (some "My.sol") []).1.savedFiles ∧
      (∀ fc : String,
        (joinPath (saveDirOf "ethereum" "0xabc" "main") "lib/oz/ERC20.sol",
            FileContent.text fc) ∈
          (saveSourceFiles (some ⟨some ["oz/"]⟩) "ethereum" "0xabc"
            [("contracts/My.sol", "contract My \x7b \x7d"), ("lib/oz/ERC20.sol", "contract E \x7b \x7d")]
            "My" "main" (some "My.sol") []).2 →
        (joinPath (saveDirOf "ethereum" "0xabc" "main") "lib/oz/ERC20.sol",
            FileContent.text fc) ∈ ([] : Disk)) := by
  have h := saveSourceFiles_c5_blacklist_never_written.1 (some ⟨some ["oz/"]⟩) "ethereum"
    "0xabc"
    [("contracts/My.sol", "contract My \x7b \x7d"), ("lib/oz/ERC20.sol", "contract E \x7b \x7d")]
    "My" "main" (some "My.sol") [] "lib/oz/ERC20.sol" "contract E \x7b \x7d"
    (List.mem_cons_of_mem _ (List.mem_singleton.2 rfl)) (by rfl)
  exact h
